import Mathlib

/-!
Verification of the terminology logic of the Slicer repository
(`Modules/Loadable/Terminologies/Logic/vtkSlicerTerminologiesModuleLogic.h`).

The repository provides only the class declaration; the method bodies are
modelled from the specification document.  `std::string` is embedded as
`List Char`; the registry of loaded terminology contexts is embedded as an
association list in insertion order; VTK object pointers that may be null
(`vtkCodedEntry*`) are embedded as `Option`.
-/

namespace Slicer

/-- `std::string`, embedded as a list of characters. -/
abbrev Str := List Char

/-- `vtkSlicerTerminologiesModuleLogic::CodeIdentifier`
(header lines 49-62): three `std::string` members,
`CodingSchemeDesignator`, `CodeValue`, `CodeMeaning`. -/
structure CodeIdentifier where
  CodingSchemeDesignator : Str
  CodeValue : Str
  CodeMeaning : Str
  deriving DecidableEq

/-- The default constructor `CodeIdentifier()` (header lines 52-53):
every `std::string` member is default-initialized, i.e. empty. -/
def CodeIdentifier.defaultConstructed : CodeIdentifier :=
  { CodingSchemeDesignator := [], CodeValue := [], CodeMeaning := [] }

/-- The three-argument constructor
`CodeIdentifier(codingSchemeDesignator, codeValue, codeMeaning)`
(header lines 54-58) with all three arguments supplied. -/
def CodeIdentifier.construct3 (codingSchemeDesignator codeValue codeMeaning : Str) :
    CodeIdentifier :=
  { CodingSchemeDesignator := codingSchemeDesignator
    CodeValue := codeValue
    CodeMeaning := codeMeaning }

/-- The same constructor called with `codeMeaning` omitted: the declaration
defaults it to `std::string()`, the empty string (header line 54). -/
def CodeIdentifier.construct2 (codingSchemeDesignator codeValue : Str) : CodeIdentifier :=
  CodeIdentifier.construct3 codingSchemeDesignator codeValue []

/-- Modelled from the spec: the `vtkSlicerTerminologyEntry` aggregate
(spec section 3, the implementation class is not under `src/`):
`terminologyContextName, category, type, typeModifier, anatomicContextName,
region, regionModifier`, where each coded component is a `CodeIdentifier`
or explicitly absent (`Option`). -/
structure TerminologyEntry where
  terminologyContextName : Str
  category : Option CodeIdentifier
  type : Option CodeIdentifier
  typeModifier : Option CodeIdentifier
  anatomicContextName : Str
  region : Option CodeIdentifier
  regionModifier : Option CodeIdentifier
  deriving DecidableEq

/-- Modelled from the spec: a coded component is serialized as the
`scheme^value^meaning` triple of caret-separated fields; an absent component
is serialized with every field empty (`SerializeTerminologyEntry`
implementation is not under `src/`). -/
def serializeCode : Option CodeIdentifier → Str
  | none => List.intercalate ['^'] [[], [], []]
  | some c => List.intercalate ['^'] [c.CodingSchemeDesignator, c.CodeValue, c.CodeMeaning]

/-- The `CodingSchemeDesignator` of a possibly absent coded component; an
absent component has the empty string in every field at the public interface. -/
def codeSchemeField : Option CodeIdentifier → Str
  | none => []
  | some c => c.CodingSchemeDesignator

/-- The `CodeValue` of a possibly absent coded component. -/
def codeValueField : Option CodeIdentifier → Str
  | none => []
  | some c => c.CodeValue

/-- The `CodeMeaning` of a possibly absent coded component. -/
def codeMeaningField : Option CodeIdentifier → Str
  | none => []
  | some c => c.CodeMeaning

/-- Modelled from the spec: the seven tilde-separated fields of a serialized
terminology entry, in the fixed order `terminologyContextName, category,
type, typeModifier, anatomicContextName, region, regionModifier`
(header lines 249-250, implementation not under `src/`). -/
def entryFields (e : TerminologyEntry) : List Str :=
  [e.terminologyContextName,
   serializeCode e.category,
   serializeCode e.type,
   serializeCode e.typeModifier,
   e.anatomicContextName,
   serializeCode e.region,
   serializeCode e.regionModifier]

/-- Modelled from the spec: `SerializeTerminologyEntry(entry)` (header
line 251, implementation not under `src/`) joins the seven fields with the
tilde delimiter into one positional string. -/
def SerializeTerminologyEntry (e : TerminologyEntry) : Str :=
  List.intercalate ['~'] (entryFields e)

/-- Modelled from the spec: the flat-string overload of
`SerializeTerminologyEntry` (header lines 256-263, implementation not under
`src/`).  Its parameters follow the header's declaration order — each coded
component is passed as `value, schemeDesignator, meaning`, deliberately
inconsistent with the `scheme, value, meaning` order used inside the
serialized string (header line 254 documents the mismatch). -/
def SerializeTerminologyEntryFlat
    (terminologyContextName
     categoryValue categorySchemeDesignator categoryMeaning
     typeValue typeSchemeDesignator typeMeaning
     modifierValue modifierSchemeDesignator modifierMeaning
     anatomicContextName
     regionValue regionSchemeDesignator regionMeaning
     regionModifierValue regionModifierSchemeDesignator regionModifierMeaning : Str) : Str :=
  List.intercalate ['~']
    [terminologyContextName,
     List.intercalate ['^'] [categorySchemeDesignator, categoryValue, categoryMeaning],
     List.intercalate ['^'] [typeSchemeDesignator, typeValue, typeMeaning],
     List.intercalate ['^'] [modifierSchemeDesignator, modifierValue, modifierMeaning],
     anatomicContextName,
     List.intercalate ['^'] [regionSchemeDesignator, regionValue, regionMeaning],
     List.intercalate ['^'] [regionModifierSchemeDesignator, regionModifierValue,
       regionModifierMeaning]]

/-- Modelled from the spec: parsing one caret-separated coded component of a
serialized entry.  Fails (`none`) unless the component splits into exactly
three caret-separated fields; a component whose three fields are all empty
is mapped back to the absent component. -/
def parseCode (s : Str) : Option (Option CodeIdentifier) :=
  match s.splitOn '^' with
  | [sch, val, mean] =>
    if sch = [] ∧ val = [] ∧ mean = [] then some none
    else some (some (CodeIdentifier.construct3 sch val mean))
  | _ => none

/-- Modelled from the spec: `DeserializeTerminologyEntry(serializedEntry,
entry)` (header line 269, implementation not under `src/`).  Splits the
input on the tilde delimiter, fails unless exactly seven fields result,
then parses the five coded components; empty fields map back to absent.
The embedding is a total function returning `Option`, mirroring the
boolean success flag: it never throws or aborts. -/
def DeserializeTerminologyEntry (s : Str) : Option TerminologyEntry :=
  let comps := s.splitOn '~'
  if comps.length = 7 then
    match parseCode (comps.getD 1 []), parseCode (comps.getD 2 []),
          parseCode (comps.getD 3 []), parseCode (comps.getD 5 []),
          parseCode (comps.getD 6 []) with
    | some c, some t, some m, some r, some rm =>
      some { terminologyContextName := comps.getD 0 []
             category := c
             type := t
             typeModifier := m
             anatomicContextName := comps.getD 4 []
             region := r
             regionModifier := rm }
    | _, _, _, _, _ => none
  else none

/-- Modelled from the spec: `AreCodedEntriesEqual(codedEntry1, codedEntry2)`
(header line 282, implementation not under `src/`): true iff both are
absent (null), or both present and identical by
`(CodingSchemeDesignator, CodeValue)`; `CodeMeaning` is ignored. -/
def AreCodedEntriesEqual : Option CodeIdentifier → Option CodeIdentifier → Bool
  | none, none => true
  | some a, some b =>
    a.CodingSchemeDesignator == b.CodingSchemeDesignator && a.CodeValue == b.CodeValue
  | _, _ => false

/-- Modelled from the spec: `AreTerminologyEntriesEqual(entry1, entry2)`
(header line 280, implementation not under `src/`): the five coded
components are compared with `AreCodedEntriesEqual` and the two context
names by exact string equality. -/
def AreTerminologyEntriesEqual (e1 e2 : TerminologyEntry) : Bool :=
  AreCodedEntriesEqual e1.category e2.category &&
  AreCodedEntriesEqual e1.type e2.type &&
  AreCodedEntriesEqual e1.typeModifier e2.typeModifier &&
  AreCodedEntriesEqual e1.region e2.region &&
  AreCodedEntriesEqual e1.regionModifier e2.regionModifier &&
  e1.terminologyContextName == e2.terminologyContextName &&
  e1.anatomicContextName == e2.anatomicContextName

/-- Modelled from the spec: the string overload
`AreTerminologyEntriesEqual(terminologyEntry1, terminologyEntry2)` (header
line 281, implementation not under `src/`): both sides are deserialized and
compared; two strings that both fail to deserialize compare as two absent
entries (the spec fixes this choice through the segment scenario of
section 8). -/
def AreTerminologyEntryStringsEqual (s1 s2 : Str) : Bool :=
  match DeserializeTerminologyEntry s1, DeserializeTerminologyEntry s2 with
  | some e1, some e2 => AreTerminologyEntriesEqual e1 e2
  | none, none => true
  | _, _ => false

/-- Modelled from the spec: a `vtkSegment` as seen by this logic — a holder
of an optional serialized-terminology attribute (tag); the segment class is
not under `src/`. -/
structure Segment where
  terminologyAttribute : Option Str

/-- Modelled from the spec: `AreSegmentTerminologyEntriesEqual(segment1,
segment2)` (header line 279, implementation not under `src/`): extracts each
segment's serialized entry — a missing attribute is read as the empty
string, i.e. an absent entry — and delegates to the string overload. -/
def AreSegmentTerminologyEntriesEqual (s1 s2 : Segment) : Bool :=
  AreTerminologyEntryStringsEqual
    (s1.terminologyAttribute.getD []) (s2.terminologyAttribute.getD [])

/-- Modelled from the spec: a modifier node of the terminology tree is a
coded entity (display attributes are irrelevant to the verified claims). -/
structure TerminologyModifier where
  code : CodeIdentifier
  deriving DecidableEq

/-- Modelled from the spec: a type node — a coded entity plus its ordered
modifiers (spec section 3; the tree model classes are not under `src/`). -/
structure TerminologyTypeNode where
  code : CodeIdentifier
  modifiers : List TerminologyModifier
  deriving DecidableEq

/-- Modelled from the spec: a category node — a coded entity plus its
ordered types. -/
structure TerminologyCategory where
  code : CodeIdentifier
  types : List TerminologyTypeNode
  deriving DecidableEq

/-- Modelled from the spec: a terminology context — an ordered sequence of
category nodes (the context name is the registry key). -/
structure TerminologyContext where
  categories : List TerminologyCategory
  deriving DecidableEq

/-- Modelled from the spec: the registry of loaded terminologies — a
name-keyed mapping in insertion order (spec sections 2 and 4.2; the
`vtkInternal` registry is not under `src/`). -/
abbrev TerminologyRegistry := List (Str × TerminologyContext)

/-- Modelled from the spec: looking a context up by name in the registry
(first match). -/
def findTerminology : TerminologyRegistry → Str → Option TerminologyContext
  | [], _ => none
  | p :: rest, name => if p.1 = name then some p.2 else findTerminology rest name

/-- Modelled from the spec: the registry update performed by
`LoadTerminologyFromFile` (header line 78, implementation not under `src/`)
once the file has been parsed into a context: insert the context under its
name, replacing any previously loaded context of the same name entirely. -/
def loadTerminology : TerminologyRegistry → Str → TerminologyContext → TerminologyRegistry
  | [], name, ctx => [(name, ctx)]
  | p :: rest, name, ctx =>
    if p.1 = name then (name, ctx) :: rest
    else p :: loadTerminology rest name ctx

/-- Modelled from the spec: `GetNumberOfCategoriesInTerminology` (header
line 134, implementation not under `src/`): the number of categories of the
named context. -/
def GetNumberOfCategoriesInTerminology (reg : TerminologyRegistry) (name : Str) : Int :=
  match findTerminology reg name with
  | some ctx => ctx.categories.length
  | none => 0

/-- Modelled from the spec: `GetNthCategoryInTerminology` (header line 139,
implementation not under `src/`): the category at the given 0-based index
in insertion order; fails outside the range. -/
def GetNthCategoryInTerminology (reg : TerminologyRegistry) (name : Str) (categoryIndex : Int) :
    Option TerminologyCategory :=
  match findTerminology reg name with
  | some ctx =>
    if 0 ≤ categoryIndex ∧ categoryIndex < ctx.categories.length then
      ctx.categories[categoryIndex.toNat]?
    else none
  | none => none

/-- Modelled from the spec: whether a type node matches the requested type
code and the requested optional modifier code; empty modifier identifiers
mean that no modifier is requested. -/
def typeMatchesQuery (t : TerminologyTypeNode)
    (typeScheme typeValue modifierScheme modifierValue : Str) : Bool :=
  t.code.CodingSchemeDesignator == typeScheme && t.code.CodeValue == typeValue &&
  (if modifierScheme = [] ∧ modifierValue = [] then true
   else t.modifiers.any fun m =>
     m.code.CodingSchemeDesignator == modifierScheme && m.code.CodeValue == modifierValue)

/-- Modelled from the spec: whether a context contains a type (with the
given optional modifier) under the given category (spec section 4.3). -/
def contextContainsQuery (ctx : TerminologyContext)
    (catScheme catValue typeScheme typeValue modifierScheme modifierValue : Str) : Bool :=
  ctx.categories.any fun cat =>
    cat.code.CodingSchemeDesignator == catScheme && cat.code.CodeValue == catValue &&
    cat.types.any fun t => typeMatchesQuery t typeScheme typeValue modifierScheme modifierValue

/-- Modelled from the spec: the names of all loaded contexts matching the
query, in registry (insertion) order. -/
def matchingTerminologyNames (reg : TerminologyRegistry)
    (catScheme catValue typeScheme typeValue modifierScheme modifierValue : Str) : List Str :=
  (reg.filter fun p =>
    contextContainsQuery p.2 catScheme catValue typeScheme typeValue
      modifierScheme modifierValue).map (fun p => p.1)

/-- Modelled from the spec: `FindTerminologyNames` (header lines 114-119,
implementation not under `src/`): all matching contexts named in
`preferredTerminologyNames` first, in that list's order, then every
remaining matching context in registry order; an empty preferred list
searches all contexts in registry order. -/
def FindTerminologyNames (reg : TerminologyRegistry)
    (catScheme catValue typeScheme typeValue modifierScheme modifierValue : Str)
    (preferredTerminologyNames : List Str) : List Str :=
  let m := matchingTerminologyNames reg catScheme catValue typeScheme typeValue
    modifierScheme modifierValue
  preferredTerminologyNames.filter (fun n => decide (n ∈ m)) ++
    m.filter (fun n => decide (n ∉ preferredTerminologyNames))

/-- A coded component is serialization-wellformed when none of its fields
contains a delimiter character and it is not indistinguishable from the
absent component (not all three fields empty). -/
def codeWf (c : CodeIdentifier) : Prop :=
  ('~' ∉ c.CodingSchemeDesignator ∧ '^' ∉ c.CodingSchemeDesignator) ∧
  ('~' ∉ c.CodeValue ∧ '^' ∉ c.CodeValue) ∧
  ('~' ∉ c.CodeMeaning ∧ '^' ∉ c.CodeMeaning) ∧
  ¬(c.CodingSchemeDesignator = [] ∧ c.CodeValue = [] ∧ c.CodeMeaning = [])

/-- Wellformedness of a possibly absent coded component. -/
def optCodeWf : Option CodeIdentifier → Prop
  | none => True
  | some c => codeWf c

instance (c : CodeIdentifier) : Decidable (codeWf c) := by
  unfold codeWf; infer_instance

instance (oc : Option CodeIdentifier) : Decidable (optCodeWf oc) := by
  cases oc <;> unfold optCodeWf <;> infer_instance

/-- An entry is serialization-wellformed when its context names contain no
tilde delimiter and each present coded component is wellformed. -/
def entryWf (e : TerminologyEntry) : Prop :=
  '~' ∉ e.terminologyContextName ∧ '~' ∉ e.anatomicContextName ∧
  optCodeWf e.category ∧ optCodeWf e.type ∧ optCodeWf e.typeModifier ∧
  optCodeWf e.region ∧ optCodeWf e.regionModifier

instance (e : TerminologyEntry) : Decidable (entryWf e) := by
  unfold entryWf; infer_instance

/-- A concrete entry with every optional component present, used to evaluate
the round-trip law. -/
def demoEntryAllPresent : TerminologyEntry :=
  { terminologyContextName := ['T']
    category := some (CodeIdentifier.construct3 ['s'] ['1'] ['C'])
    type := some (CodeIdentifier.construct3 ['s'] ['2'] ['D'])
    typeModifier := some (CodeIdentifier.construct3 ['s'] ['3'] ['E'])
    anatomicContextName := ['A']
    region := some (CodeIdentifier.construct3 ['s'] ['4'] ['F'])
    regionModifier := some (CodeIdentifier.construct3 ['s'] ['5'] ['G']) }

lemma areCodedEntriesEqual_refl (a : Option CodeIdentifier) :
    AreCodedEntriesEqual a a = true := by
  cases a <;> simp [AreCodedEntriesEqual]

lemma areTerminologyEntriesEqual_refl (e : TerminologyEntry) :
    AreTerminologyEntriesEqual e e = true := by
  simp [AreTerminologyEntriesEqual, areCodedEntriesEqual_refl]

lemma serializeCode_eq_fields (oc : Option CodeIdentifier) :
    serializeCode oc =
      List.intercalate ['^'] [codeSchemeField oc, codeValueField oc, codeMeaningField oc] := by
  cases oc <;> rfl

/-- C10: A default-constructed `CodeIdentifier` has `CodingSchemeDesignator`,
`CodeValue` and `CodeMeaning` all equal to the empty string; the
three-argument constructor with `codeMeaning` omitted equals the constructor
applied to the empty meaning; and at the public interface an absent code and
a code whose fields are all empty are the same value: they serialize to the
same component, and that component deserializes to the absent code. -/
theorem codeIdentifier_defaults_spec :
    CodeIdentifier.defaultConstructed = CodeIdentifier.construct3 [] [] [] ∧
    (∀ s v : Str, CodeIdentifier.construct2 s v = CodeIdentifier.construct3 s v []) ∧
    serializeCode none = serializeCode (some CodeIdentifier.defaultConstructed) ∧
    parseCode (serializeCode (some CodeIdentifier.defaultConstructed)) = some none := by
  exact ⟨rfl, fun s v => rfl, rfl, by decide⟩

/-- C2: `AreTerminologyEntriesEqual(e1, e2)` is true iff all seven component
fields match: the five coded components under `AreCodedEntriesEqual` and the
two context names by exact string equality. -/
theorem areTerminologyEntriesEqual_iff (e1 e2 : TerminologyEntry) :
    AreTerminologyEntriesEqual e1 e2 = true ↔
      (AreCodedEntriesEqual e1.category e2.category = true ∧
       AreCodedEntriesEqual e1.type e2.type = true ∧
       AreCodedEntriesEqual e1.typeModifier e2.typeModifier = true ∧
       AreCodedEntriesEqual e1.region e2.region = true ∧
       AreCodedEntriesEqual e1.regionModifier e2.regionModifier = true ∧
       e1.terminologyContextName = e2.terminologyContextName ∧
       e1.anatomicContextName = e2.anatomicContextName) := by
  simp [AreTerminologyEntriesEqual, and_assoc]

/-- C3: `AreCodedEntriesEqual(a, b)` is true iff both are absent or both are
present with identical `CodingSchemeDesignator` and `CodeValue`; the
`CodeMeaning` never influences the result, and the function is symmetric. -/
theorem areCodedEntriesEqual_spec :
    (∀ a b : Option CodeIdentifier, AreCodedEntriesEqual a b = true ↔
      (a = none ∧ b = none) ∨
      (∃ x y, a = some x ∧ b = some y ∧
        x.CodingSchemeDesignator = y.CodingSchemeDesignator ∧ x.CodeValue = y.CodeValue)) ∧
    (∀ sch v m1 m2 : Str,
      AreCodedEntriesEqual (some (CodeIdentifier.construct3 sch v m1))
        (some (CodeIdentifier.construct3 sch v m2)) = true) ∧
    (∀ a b : Option CodeIdentifier, AreCodedEntriesEqual a b = AreCodedEntriesEqual b a) := by
  refine ⟨fun a b => ?_, fun sch v m1 m2 => ?_, fun a b => ?_⟩
  · cases a <;> cases b <;> simp [AreCodedEntriesEqual]
  · simp [AreCodedEntriesEqual, CodeIdentifier.construct3]
  · cases a <;> cases b <;> simp [AreCodedEntriesEqual]
    rw [Bool.eq_iff_iff]
    simp only [Bool.and_eq_true, beq_iff_eq]
    constructor <;> rintro ⟨h1, h2⟩ <;> exact ⟨h1.symm, h2.symm⟩

/-- C9: the flat-string overload of `SerializeTerminologyEntry`, applied to
the individual field values of an entry `e` in its own (value, scheme,
meaning) parameter order, produces the same serialized string as the
entry-object overload `SerializeTerminologyEntry e`. -/
theorem serialize_overloads_agree (e : TerminologyEntry) :
    SerializeTerminologyEntryFlat e.terminologyContextName
      (codeValueField e.category) (codeSchemeField e.category) (codeMeaningField e.category)
      (codeValueField e.type) (codeSchemeField e.type) (codeMeaningField e.type)
      (codeValueField e.typeModifier) (codeSchemeField e.typeModifier)
      (codeMeaningField e.typeModifier)
      e.anatomicContextName
      (codeValueField e.region) (codeSchemeField e.region) (codeMeaningField e.region)
      (codeValueField e.regionModifier) (codeSchemeField e.regionModifier)
      (codeMeaningField e.regionModifier) =
    SerializeTerminologyEntry e := by
  simp [SerializeTerminologyEntryFlat, SerializeTerminologyEntry, entryFields,
    serializeCode_eq_fields]

lemma noTilde_serializeCode (oc : Option CodeIdentifier) (h : optCodeWf oc) :
    '~' ∉ serializeCode oc := by
  cases oc with
  | none => decide
  | some c =>
    obtain ⟨⟨hs, _⟩, ⟨hv, _⟩, ⟨hm, _⟩, _⟩ := h
    have hrepr : serializeCode (some c) =
        c.CodingSchemeDesignator ++ '^' :: (c.CodeValue ++ '^' :: (c.CodeMeaning ++ [])) := rfl
    intro hmem
    rw [hrepr] at hmem
    simp only [List.append_nil, List.mem_append, List.mem_cons] at hmem
    have hne : ('~' : Char) ≠ '^' := by decide
    tauto

lemma parseCode_serializeCode (oc : Option CodeIdentifier) (h : optCodeWf oc) :
    parseCode (serializeCode oc) = some oc := by
  cases oc with
  | none => decide
  | some c =>
    obtain ⟨⟨_, hs⟩, ⟨_, hv⟩, ⟨_, hm⟩, hne⟩ := h
    have hsplit : (serializeCode (some c)).splitOn '^' =
        [c.CodingSchemeDesignator, c.CodeValue, c.CodeMeaning] := by
      apply List.splitOn_intercalate
      · intro l hl
        simp only [List.mem_cons, List.not_mem_nil, or_false] at hl
        rcases hl with rfl | rfl | rfl
        · exact hs
        · exact hv
        · exact hm
      · simp
    have hstep : parseCode (serializeCode (some c)) =
        if c.CodingSchemeDesignator = [] ∧ c.CodeValue = [] ∧ c.CodeMeaning = [] then some none
        else some (some (CodeIdentifier.construct3 c.CodingSchemeDesignator c.CodeValue
          c.CodeMeaning)) := by
      unfold parseCode
      rw [hsplit]
    rw [hstep, if_neg hne]
    rfl

lemma splitOn_serialize (e : TerminologyEntry) (h : entryWf e) :
    (SerializeTerminologyEntry e).splitOn '~' = entryFields e := by
  obtain ⟨h1, h2, hc, ht, hm, hr, hrm⟩ := h
  show (List.intercalate ['~'] (entryFields e)).splitOn '~' = entryFields e
  apply List.splitOn_intercalate
  · intro l hl
    simp only [entryFields, List.mem_cons, List.not_mem_nil, or_false] at hl
    rcases hl with rfl | rfl | rfl | rfl | rfl | rfl | rfl
    · exact h1
    · exact noTilde_serializeCode _ hc
    · exact noTilde_serializeCode _ ht
    · exact noTilde_serializeCode _ hm
    · exact h2
    · exact noTilde_serializeCode _ hr
    · exact noTilde_serializeCode _ hrm
  · simp [entryFields]

lemma deserialize_serialize (e : TerminologyEntry) (h : entryWf e) :
    DeserializeTerminologyEntry (SerializeTerminologyEntry e) = some e := by
  have hwf := h
  obtain ⟨h1, h2, hc, ht, hm, hr, hrm⟩ := hwf
  have hsplit := splitOn_serialize e h
  unfold DeserializeTerminologyEntry
  rw [hsplit]
  simp [entryFields, List.getD, parseCode_serializeCode _ hc, parseCode_serializeCode _ ht,
    parseCode_serializeCode _ hm, parseCode_serializeCode _ hr, parseCode_serializeCode _ hrm]

/-- C1 (amended): for every terminology entry whose context names contain no
tilde delimiter and whose present coded components contain no delimiter
character in any field and are not entirely empty, deserializing the string
produced by `SerializeTerminologyEntry` succeeds and yields an entry equal
to the original under `AreTerminologyEntriesEqual`. -/
theorem serialize_deserialize_roundtrip_wf (e : TerminologyEntry) (h : entryWf e) :
    ∃ e2, DeserializeTerminologyEntry (SerializeTerminologyEntry e) = some e2 ∧
      AreTerminologyEntriesEqual e e2 = true :=
  ⟨e, deserialize_serialize e h, areTerminologyEntriesEqual_refl e⟩

/-- C1 witness: the amended round-trip law evaluated at a concrete entry
with every optional component present. -/
theorem serialize_deserialize_roundtrip_wf_witness :
    entryWf demoEntryAllPresent ∧
    ∃ e2, DeserializeTerminologyEntry (SerializeTerminologyEntry demoEntryAllPresent) = some e2 ∧
      AreTerminologyEntriesEqual demoEntryAllPresent e2 = true :=
  ⟨by decide, serialize_deserialize_roundtrip_wf demoEntryAllPresent (by decide)⟩

/-- C1 counterexample: the round-trip claim as stated fails — an entry whose
terminology context name contains the tilde delimiter serializes to a string
with eight fields, so `DeserializeTerminologyEntry` fails on it instead of
returning the entry. -/
theorem roundtrip_fails_on_delimiter_in_field :
    DeserializeTerminologyEntry (SerializeTerminologyEntry
      { terminologyContextName := ['~'], category := none, type := none, typeModifier := none
        anatomicContextName := [], region := none, regionModifier := none }) = none := by
  decide

/-- C6: `DeserializeTerminologyEntry` returns failure whenever the input does
not split into exactly seven tilde-delimited fields; the embedding is a total
function, so no exception or abort is possible. -/
theorem deserialize_fails_on_wrong_field_count (s : Str)
    (h : (s.splitOn '~').length ≠ 7) :
    DeserializeTerminologyEntry s = none := by
  simp [DeserializeTerminologyEntry, h]

/-- C6 witness: the empty string splits into one field, not seven, and
deserialization of it fails. -/
theorem deserialize_fails_on_wrong_field_count_witness :
    (([] : Str).splitOn '~').length ≠ 7 ∧ DeserializeTerminologyEntry [] = none :=
  ⟨by decide, deserialize_fails_on_wrong_field_count [] (by decide)⟩

/-- C7: `AreSegmentTerminologyEntriesEqual` treats a missing terminology
attribute as an absent entry: two segments with no terminology attribute
compare equal, while a segment with no attribute differs from one carrying a
deserializable entry. -/
theorem segment_missing_attribute_spec (s1 s2 : Segment)
    (h1 : s1.terminologyAttribute = none) :
    (s2.terminologyAttribute = none → AreSegmentTerminologyEntriesEqual s1 s2 = true) ∧
    (∀ str e, s2.terminologyAttribute = some str → DeserializeTerminologyEntry str = some e →
      AreSegmentTerminologyEntriesEqual s1 s2 = false) := by
  have hnil : DeserializeTerminologyEntry [] = none := by decide
  constructor
  · intro h2
    simp [AreSegmentTerminologyEntriesEqual, AreTerminologyEntryStringsEqual, h1, h2, hnil]
  · intro str e h2 he
    simp [AreSegmentTerminologyEntriesEqual, AreTerminologyEntryStringsEqual, h1, h2, hnil, he]

/-- C7 witness: two segments with no terminology attribute compare equal. -/
theorem segment_missing_attribute_spec_witness :
    AreSegmentTerminologyEntriesEqual
      { terminologyAttribute := none } { terminologyAttribute := none } = true :=
  (segment_missing_attribute_spec
    { terminologyAttribute := none } { terminologyAttribute := none } rfl).1 rfl

/-- C4: for every loaded terminology context with `n` categories,
`GetNumberOfCategoriesInTerminology` returns `n`,
`GetNthCategoryInTerminology` succeeds for every index in `[0, n)` and
returns the category at that position in insertion order, and it fails for
every index outside `[0, n)` (in particular for `n` itself). -/
theorem nthCategory_spec (reg : TerminologyRegistry) (name : Str) (ctx : TerminologyContext)
    (h : findTerminology reg name = some ctx) :
    GetNumberOfCategoriesInTerminology reg name = ctx.categories.length ∧
    (∀ i : Nat, (hi : i < ctx.categories.length) →
      GetNthCategoryInTerminology reg name i = some (ctx.categories.get ⟨i, hi⟩)) ∧
    (∀ i : Int, i < 0 ∨ (ctx.categories.length : Int) ≤ i →
      GetNthCategoryInTerminology reg name i = none) := by
  refine ⟨?_, ?_, ?_⟩
  · simp [GetNumberOfCategoriesInTerminology, h]
  · intro i hi
    have h0 : (0 : Int) ≤ (i : Int) := Int.natCast_nonneg i
    have hlt : (i : Int) < ctx.categories.length := by exact_mod_cast hi
    simp only [GetNthCategoryInTerminology, h]
    rw [if_pos ⟨h0, hlt⟩]
    simp [List.getElem?_eq_getElem hi]
  · intro i hi
    simp only [GetNthCategoryInTerminology, h]
    rw [if_neg]
    rintro ⟨hA, hB⟩
    rcases hi with hlt | hge <;> omega

/-- C4 witness: a registry holding one context with a single category. -/
theorem nthCategory_spec_witness :
    GetNumberOfCategoriesInTerminology
      [(['t'], { categories := [{ code := CodeIdentifier.construct3 ['s'] ['1'] [], types := [] }] })]
      ['t'] = 1 :=
  (nthCategory_spec
    [(['t'], { categories := [{ code := CodeIdentifier.construct3 ['s'] ['1'] [], types := [] }] })]
    ['t'] { categories := [{ code := CodeIdentifier.construct3 ['s'] ['1'] [], types := [] }] }
    (by decide)).1

lemma findTerminology_loadTerminology (reg : TerminologyRegistry) (name : Str)
    (ctx : TerminologyContext) :
    findTerminology (loadTerminology reg name ctx) name = some ctx := by
  induction reg with
  | nil => simp [loadTerminology, findTerminology]
  | cons p rest ih =>
    by_cases hp : p.1 = name
    · simp [loadTerminology, hp, findTerminology]
    · simp [loadTerminology, hp, findTerminology, ih]

lemma loadTerminology_mem_name (reg : TerminologyRegistry) (name : Str)
    (ctx d : TerminologyContext)
    (hnodup : (reg.map Prod.fst).Nodup)
    (hd : (name, d) ∈ loadTerminology reg name ctx) : d = ctx := by
  induction reg with
  | nil =>
    simp only [loadTerminology, List.mem_singleton, Prod.mk.injEq] at hd
    exact hd.2
  | cons p rest ih =>
    simp only [List.map_cons, List.nodup_cons] at hnodup
    obtain ⟨hp1, hp2⟩ := hnodup
    by_cases hp : p.1 = name
    · rw [loadTerminology, if_pos hp] at hd
      rcases List.mem_cons.mp hd with heq | hmem
      · exact (Prod.mk.injEq _ _ _ _ ▸ heq).2
      · exact absurd (hp ▸ List.mem_map.mpr ⟨(name, d), hmem, rfl⟩) hp1
    · rw [loadTerminology, if_neg hp] at hd
      rcases List.mem_cons.mp hd with heq | hmem
      · exact absurd (congrArg Prod.fst heq.symm) hp
      · exact ih hp2 hmem

/-- C5: loading a context under an already present name replaces the old tree
entirely — a category present only in the previously loaded version is absent
from the context reachable under that name after the reload — and the name
maps to exactly one context. -/
theorem loadTerminology_replaces (reg : TerminologyRegistry) (name : Str)
    (oldCtx newCtx : TerminologyContext) (c : TerminologyCategory)
    (hnodup : (reg.map Prod.fst).Nodup)
    (hold : findTerminology reg name = some oldCtx)
    (hc : c ∈ oldCtx.categories) (hnew : c ∉ newCtx.categories) :
    findTerminology (loadTerminology reg name newCtx) name = some newCtx ∧
    (∀ d, findTerminology (loadTerminology reg name newCtx) name = some d →
      c ∉ d.categories) ∧
    (∀ d, (name, d) ∈ loadTerminology reg name newCtx → d = newCtx) := by
  refine ⟨findTerminology_loadTerminology reg name newCtx, ?_, ?_⟩
  · intro d hd
    rw [findTerminology_loadTerminology reg name newCtx] at hd
    obtain rfl : newCtx = d := Option.some.inj hd
    exact hnew
  · intro d hd
    exact loadTerminology_mem_name reg name newCtx d hnodup hd

/-- C5 witness: reloading a one-context registry with an empty context makes
the old category unreachable under the name. -/
theorem loadTerminology_replaces_witness :
    findTerminology
      (loadTerminology
        [(['t'], { categories := [{ code := CodeIdentifier.construct3 ['s'] ['1'] [], types := [] }] })]
        ['t'] { categories := [] })
      ['t'] = some { categories := [] } :=
  (loadTerminology_replaces
    [(['t'], { categories := [{ code := CodeIdentifier.construct3 ['s'] ['1'] [], types := [] }] })]
    ['t']
    { categories := [{ code := CodeIdentifier.construct3 ['s'] ['1'] [], types := [] }] }
    { categories := [] }
    { code := CodeIdentifier.construct3 ['s'] ['1'] [], types := [] }
    (by decide) (by decide) (by decide) (by decide)).1

/-- C8: `FindTerminologyNames` returns exactly the names of the loaded
contexts containing a type (with the given optional modifier) under the
given category; the result lists the matching preferred names first, in
preference-list order, then every remaining matching context in registry
order, and an empty preferred list yields all matches in registry order. -/
theorem findTerminologyNames_spec (reg : TerminologyRegistry)
    (catScheme catValue typeScheme typeValue modifierScheme modifierValue : Str)
    (preferred : List Str) :
    (∀ n, n ∈ FindTerminologyNames reg catScheme catValue typeScheme typeValue
        modifierScheme modifierValue preferred ↔
      n ∈ matchingTerminologyNames reg catScheme catValue typeScheme typeValue
        modifierScheme modifierValue) ∧
    FindTerminologyNames reg catScheme catValue typeScheme typeValue
        modifierScheme modifierValue preferred =
      preferred.filter (fun n => decide (n ∈ matchingTerminologyNames reg catScheme catValue
        typeScheme typeValue modifierScheme modifierValue)) ++
      (matchingTerminologyNames reg catScheme catValue typeScheme typeValue
        modifierScheme modifierValue).filter (fun n => decide (n ∉ preferred)) ∧
    FindTerminologyNames reg catScheme catValue typeScheme typeValue
        modifierScheme modifierValue [] =
      matchingTerminologyNames reg catScheme catValue typeScheme typeValue
        modifierScheme modifierValue ∧
    (∀ n, n ∈ matchingTerminologyNames reg catScheme catValue typeScheme typeValue
        modifierScheme modifierValue ↔
      ∃ ctx, (n, ctx) ∈ reg ∧
        contextContainsQuery ctx catScheme catValue typeScheme typeValue
          modifierScheme modifierValue = true) := by
  refine ⟨?_, rfl, ?_, ?_⟩
  · intro n
    simp only [FindTerminologyNames, List.mem_append, List.mem_filter, decide_eq_true_eq]
    constructor
    · rintro (⟨_, hm⟩ | ⟨hm, _⟩) <;> exact hm
    · intro hm
      by_cases hp : n ∈ preferred
      · exact Or.inl ⟨hp, hm⟩
      · exact Or.inr ⟨hm, hp⟩
  · simp [FindTerminologyNames]
  · intro n
    simp only [matchingTerminologyNames, List.mem_map, List.mem_filter]
    constructor
    · rintro ⟨⟨n', ctx⟩, ⟨hmem, hq⟩, rfl⟩
      exact ⟨ctx, hmem, hq⟩
    · rintro ⟨ctx, hmem, hq⟩
      exact ⟨(n, ctx), ⟨hmem, hq⟩, rfl⟩

end Slicer
